import Mathlib

/-!
# Verification of the Gantry motion-control core

Shallow embedding of the Gantry repository (a multi-instance 3D-printer
controller written in Rust) together with proofs about the embedded code.

The embedding covers:
* the `f32` values used by the motion pipeline, modelled as exact rationals
  with an explicit NaN (`F`), since every claim is stated "modulo
  floating-point";
* the action queue (`src/gantry/src/printer/action.rs`): `Move`,
  `KinematicMove`, `ExtrusionMove`, `Action`, `PrinterAction`, the queue
  state and the `push`/`flush`/`clear` operations as a step function that
  also returns the batch of `PrinterAction`s emitted on the event channel;
* the `g0`/`g1` G-code handler (`src/gantry/src/gcode/g1.rs`);
* the printer `restart` error paths (`src/gantry/src/printer/printer.rs`);
* the hand-rolled config parser (`src/gantry/src/config/cfg.rs`) with its
  transactional-rewind stream;
* the file-watch cache invalidation (`src/gantry/src/files.rs`).

Rust panics (`unwrap`, `todo!`, a panicking `f32::clamp`) are modelled as an
explicit `panic` outcome, and the one scanning loop that can spin forever at
end of input is modelled denotationally with a `diverge` outcome.
-/

namespace Gantry

/-! ## A model of `f32`

The claims about the motion pipeline are all stated up to floating-point
rounding, and the interesting behaviour of the Rust code is which values are
NaN and how NaN propagates.  `F` is an exact rational together with an
explicit NaN; arithmetic is NaN-absorbing, as in IEEE float arithmetic. -/

inductive F where
  | nan : F
  | val : ℚ → F
deriving DecidableEq, Repr

namespace F

def isNaN : F → Bool
  | nan => true
  | val _ => false

def add : F → F → F
  | val a, val b => val (a + b)
  | _, _ => nan

def sub : F → F → F
  | val a, val b => val (a - b)
  | _, _ => nan

/-- Rust `f32::clamp(self, min, max)`: panics (`none`) when `min > max` or
either bound is NaN; returns NaN for NaN input; otherwise the usual clamp. -/
def clampOpt : F → F → F → Option F
  | x, val lo, val hi =>
    if lo ≤ hi then
      some (match x with
        | nan => nan
        | val q => if q < lo then val lo else if q > hi then val hi else val q)
    else none
  | _, _, _ => none

@[simp] theorem isNaN_val (q : ℚ) : (val q).isNaN = false := rfl

@[simp] theorem isNaN_nan : (nan).isNaN = true := rfl

theorem add_assoc (a b c : F) : add (add a b) c = add a (add b c) := by
  cases a <;> cases b <;> cases c <;> simp [add]
  ring

end F

/-! ## Data model of `src/gantry/src/printer/action.rs` -/

/-- Struct `Move` from action.rs: all components are `f32`s that may be NaN
("unspecified"). -/
structure Move where
  start_velocity : F
  target_velocity : F
  x : F
  y : F
  z : F
  e : F
deriving DecidableEq, Repr

/-- Struct `KinematicMove` from action.rs. -/
structure KinematicMove where
  start_velocity : F
  acceleration : F
  x : F
  y : F
  z : F
  e : F
deriving DecidableEq, Repr

/-- Struct `ExtrusionMove` from action.rs. -/
structure ExtrusionMove where
  flow : F
  distance : F
deriving DecidableEq, Repr

/-- Enum `Action` from action.rs (intent, pre-queue). -/
inductive Action where
  | move (m : Move)
  | setVelocity (f : F)
  | setBedTemp (t : F)
  | setBedTempWait (t : F)
  | setExtruderTemp (index : Nat) (temp : F)
  | setExtruderTempWait (index : Nat) (temp : F)
deriving DecidableEq, Repr

/-- Enum `PrinterAction` from action.rs (emitted on the event channel, wrapped in
`PrinterEvent::Action`). -/
inductive PrinterAction where
  | kinematicMove (k : KinematicMove)
  | extrusionMove (e : ExtrusionMove)
  | setBedTemp (t : F)
  | setBedTempWait (t : F)
  | setExtruderTemp (index : Nat) (temp : F)
  | setExtruderTempWait (index : Nat) (temp : F)
deriving DecidableEq, Repr

/-- The queue state: the fields of `ActionState` used by `push`, the
`suspended` flag of `ActionQueue`, and `ActionQueueInner`.
(`gcode_line`, `gcode_running`, origins and `exclude_objects` are not read
by any of the queue operations modelled here.) -/
structure QState where
  max_velocity : F
  max_accel : F
  square_corner_velocity : F
  minimum_cruise_ratio : F
  absolute_position : Bool
  absolute_extrution : Bool
  x_position : F
  y_position : F
  z_position : F
  e_position : F
  suspended : Bool
  first_move : Option Move
  first_move_accel : F
  next_actions : List PrinterAction
deriving DecidableEq, Repr

/-- Initial values from `ActionState::new` and `ActionQueue::new`:
`max_velocity = 100`, `max_accel = 3000`, `square_corner_velocity = 5`,
`minimum_cruise_ratio = 0.5`, relative positioning, `x/y/z_position = NaN`,
`e_position = 0`, not suspended, empty queue. -/
def QState.initial : QState where
  max_velocity := F.val 100
  max_accel := F.val 3000
  square_corner_velocity := F.val 5
  minimum_cruise_ratio := F.val (1/2)
  absolute_position := false
  absolute_extrution := false
  x_position := F.nan
  y_position := F.nan
  z_position := F.nan
  e_position := F.val 0
  suspended := false
  first_move := none
  first_move_accel := F.val 0
  next_actions := []

/-- The normalisation `ActionQueue::push` applies to an incoming `Move`
before the queue logic (action.rs lines 214-258): default the target
velocity to `max_velocity` when NaN, clamp it to `[0.1, max_velocity]`
(`none` models the Rust clamp panic), convert each non-NaN spatial
component to relative when `absolute_position` is set (likewise `e` under
`absolute_extrution`), then replace any remaining NaN component with `0`. -/
def processMove (s : QState) (m : Move) : Option Move :=
  let tv0 := if m.target_velocity.isNaN then s.max_velocity else m.target_velocity
  match F.clampOpt tv0 (F.val (1/10)) s.max_velocity with
  | none => none
  | some tv =>
    let x1 := if s.absolute_position && !m.x.isNaN then m.x.sub s.x_position else m.x
    let y1 := if s.absolute_position && !m.y.isNaN then m.y.sub s.y_position else m.y
    let z1 := if s.absolute_position && !m.z.isNaN then m.z.sub s.z_position else m.z
    let e1 := if s.absolute_extrution && !m.e.isNaN then m.e.sub s.e_position else m.e
    some { start_velocity := m.start_velocity
           target_velocity := tv
           x := if x1.isNaN then F.val 0 else x1
           y := if y1.isNaN then F.val 0 else y1
           z := if z1.isNaN then F.val 0 else z1
           e := if e1.isNaN then F.val 0 else e1 }

/-- Method `ActionQueue::encode_and_send` exactly as in the source
(action.rs line 350): its body is EMPTY —
`async fn encode_and_send(&self, move_: Move, next_move: Option<&Move>) {}`
— so encoding a move sends nothing on the event channel, even though the
function's own doc comment says it "encodes the move with provided next
move" and the `ActionQueue` doc says moves "are encoded into trapezoidle
movements when enough information is given"; spec §9 records the
junction-velocity encoding as unimplemented. -/
def encode_and_send (_move : Move) (_next_move : Option Move) :
    List PrinterAction :=
  []

/-- Method `ActionQueue::flush`: a no-op when suspended; otherwise encode the held
`first_move` (with no look-ahead) and drain the deferred FIFO.  Returns the
new state and the batch of `PrinterAction`s emitted on the event channel. -/
def flush (s : QState) : QState × List PrinterAction :=
  if s.suspended then (s, [])
  else
    match s.first_move with
    | some fm =>
      ({ s with first_move := none, next_actions := [] },
        encode_and_send fm none ++ s.next_actions)
    | none => ({ s with next_actions := [] }, s.next_actions)

/-- Method `ActionQueue::push`: ignored when suspended.  A `Move` is normalised by
`processMove` (`none` = the Rust clamp panic), its relative displacements are
added onto the cached positions, and then it either encodes the held
`first_move` (draining the FIFO afterwards) or becomes the new `first_move`
with the frozen acceleration.  Non-wait thermal actions are deferred while a
move is pending and sent immediately otherwise; `*Wait` thermal actions
flush first.  Returns the new state and the emitted batch. -/
def push (s : QState) (a : Action) : Option (QState × List PrinterAction) :=
  if s.suspended then some (s, [])
  else
    match a with
    | .move m =>
      match processMove s m with
      | none => none
      | some nm =>
        let s1 := { s with
          x_position := s.x_position.add nm.x
          y_position := s.y_position.add nm.y
          z_position := s.z_position.add nm.z
          e_position := s.e_position.add nm.e }
        match s.first_move with
        | some fm =>
          some ({ s1 with first_move := none, next_actions := [] },
            encode_and_send fm (some nm) ++ s.next_actions)
        | none =>
          some ({ s1 with first_move := some nm, first_move_accel := s.max_accel }, [])
    | .setVelocity f => some ({ s with max_velocity := f }, [])
    | .setBedTemp t =>
      match s.first_move with
      | some _ =>
        some ({ s with next_actions := s.next_actions ++ [.setBedTemp t] }, [])
      | none => some (s, [.setBedTemp t])
    | .setBedTempWait t =>
      let (s1, out) := flush s
      some (s1, out ++ [.setBedTempWait t])
    | .setExtruderTemp index temp =>
      match s.first_move with
      | some _ =>
        some ({ s with next_actions := s.next_actions ++ [.setExtruderTemp index temp] }, [])
      | none => some (s, [.setExtruderTemp index temp])
    | .setExtruderTempWait index temp =>
      let (s1, out) := flush s
      some (s1, out ++ [.setExtruderTempWait index temp])

/-- Method `ActionQueue::clear`. -/
def clear (s : QState) : QState :=
  { s with first_move := none, next_actions := [] }

/-- An operation on the action queue: a `push` or a `flush`. -/
inductive QOp where
  | push (a : Action)
  | flush
deriving DecidableEq, Repr

/-- One queue operation. -/
def stepOp (s : QState) : QOp → Option (QState × List PrinterAction)
  | .push a => push s a
  | .flush => some (flush s)

/-- Run a sequence of queue operations, returning the final state and the
per-operation emission batches (`none` models a Rust panic part-way). -/
def runOps (s : QState) : List QOp → Option (QState × List (List PrinterAction))
  | [] => some (s, [])
  | op :: ops =>
    match stepOp s op with
    | none => none
    | some (s1, b) =>
      match runOps s1 ops with
      | none => none
      | some (s2, bs) => some (s2, b :: bs)

/-- No component of the move that the queue logic reads is NaN
(`start_velocity` is never touched by `push` and stays as given). -/
def NoNaNMove (m : Move) : Prop :=
  m.target_velocity.isNaN = false ∧ m.x.isNaN = false ∧ m.y.isNaN = false ∧
    m.z.isNaN = false ∧ m.e.isNaN = false

/-- Every move held in `first_move` has no NaN components. -/
def HeldMoveOk (s : QState) : Prop := ∀ fm, s.first_move = some fm → NoNaNMove fm

theorem clampOpt_some_noNaN {x lo hi tv : F} (h : F.clampOpt x lo hi = some tv)
    (hx : x.isNaN = false) : tv.isNaN = false := by
  cases x with
  | nan => simp at hx
  | val q =>
    cases lo with
    | nan => simp [F.clampOpt] at h
    | val a =>
      cases hi with
      | nan => simp [F.clampOpt] at h
      | val b =>
        unfold F.clampOpt at h
        by_cases hle : a ≤ b
        · simp only [if_pos hle, Option.some.injEq] at h
          rw [← h]
          split <;> try split
          all_goals simp
        · simp [if_neg hle] at h

theorem clampOpt_some_hiVal {x lo hi tv : F} (h : F.clampOpt x lo hi = some tv) :
    hi.isNaN = false := by
  cases lo <;> cases hi <;> simp [F.clampOpt] at h ⊢

theorem deNaN_noNaN (x : F) : (if x.isNaN then F.val 0 else x).isNaN = false := by
  cases x <;> simp

theorem processMove_noNaN {s : QState} {m nm : Move}
    (h : processMove s m = some nm) : NoNaNMove nm := by
  unfold processMove at h
  rcases hcl : F.clampOpt (if m.target_velocity.isNaN then s.max_velocity
      else m.target_velocity) (F.val (1/10)) s.max_velocity with _ | tv
  · simp only [hcl] at h
    exact Option.noConfusion h
  · simp only [hcl, Option.some.injEq] at h
    subst h
    refine ⟨?_, ?_, ?_, ?_, ?_⟩
    · -- the clamped target velocity: a NaN input to the clamp would force
      -- `max_velocity` to be NaN, in which case the clamp would have
      -- panicked instead of succeeding
      show tv.isNaN = false
      refine clampOpt_some_noNaN hcl ?_
      rcases htv : m.target_velocity with _ | q
      · simpa using clampOpt_some_hiVal (htv ▸ hcl)
      · simp
    all_goals exact deNaN_noNaN _

/-- The state part of `flush` either keeps or empties `first_move`, so it
preserves `HeldMoveOk`. -/
theorem flush_heldMoveOk {s : QState} (hs : HeldMoveOk s) :
    HeldMoveOk (flush s).1 := by
  unfold flush
  split
  · exact hs
  · split
    · intro fm hfm; exact Option.noConfusion hfm
    · intro fm hfm; exact hs fm hfm

/-- C7, invariant part: one queue operation preserves `HeldMoveOk`. -/
theorem stepOp_heldMoveOk {s : QState} {op : QOp} {s' : QState}
    {b : List PrinterAction} (hs : HeldMoveOk s)
    (h : stepOp s op = some (s', b)) : HeldMoveOk s' := by
  cases op with
  | flush =>
    have h' : (flush s).1 = s' := congrArg Prod.fst (Option.some.inj h)
    exact h' ▸ flush_heldMoveOk hs
  | push a =>
    simp only [stepOp] at h
    unfold push at h
    split at h
    · obtain ⟨rfl, rfl⟩ : (s, ([] : List PrinterAction)) = (s', b) :=
        Option.some.inj h
      exact hs
    · cases a with
      | move m =>
        dsimp only at h
        rcases hpm : processMove s m with _ | nm <;> rw [hpm] at h
        · exact Option.noConfusion h
        · rcases hfm : s.first_move with _ | fm <;> rw [hfm] at h <;>
            obtain ⟨h1, -⟩ := Prod.mk.injEq .. ▸ Option.some.inj h <;>
            rw [← h1] <;> intro fm' hfm'
          · exact (Option.some.inj hfm') ▸ processMove_noNaN hpm
          · exact Option.noConfusion hfm'
      | setVelocity f =>
        dsimp only at h
        obtain ⟨h1, -⟩ := Prod.mk.injEq .. ▸ Option.some.inj h
        rw [← h1]; intro fm hfm; exact hs fm hfm
      | setBedTemp t =>
        dsimp only at h
        rcases hfm : s.first_move with _ | fm <;> rw [hfm] at h <;>
          obtain ⟨h1, -⟩ := Prod.mk.injEq .. ▸ Option.some.inj h <;>
          rw [← h1] <;> intro fm' hfm'
        · exact hs fm' hfm'
        · exact (Option.some.inj hfm') ▸ hs fm hfm
      | setBedTempWait t =>
        dsimp only at h
        obtain ⟨h1, -⟩ := Prod.mk.injEq .. ▸ Option.some.inj h
        rw [← h1]; exact flush_heldMoveOk hs
      | setExtruderTemp index temp =>
        dsimp only at h
        rcases hfm : s.first_move with _ | fm <;> rw [hfm] at h <;>
          obtain ⟨h1, -⟩ := Prod.mk.injEq .. ▸ Option.some.inj h <;>
          rw [← h1] <;> intro fm' hfm'
        · exact hs fm' hfm'
        · exact (Option.some.inj hfm') ▸ hs fm hfm
      | setExtruderTempWait index temp =>
        dsimp only at h
        obtain ⟨h1, -⟩ := Prod.mk.injEq .. ▸ Option.some.inj h
        rw [← h1]; exact flush_heldMoveOk hs

/-- The relative form of one axis component: subtract the cached position
when the axis is in absolute mode and the component was specified (non-NaN),
then replace a NaN result by `0`. -/
def relComponent (abs : Bool) (c pos : F) : F :=
  let c1 := if abs && !c.isNaN then c.sub pos else c
  if c1.isNaN then F.val 0 else c1

theorem processMove_fields {s : QState} {m nm : Move}
    (h : processMove s m = some nm) :
    nm.start_velocity = m.start_velocity ∧
    nm.x = relComponent s.absolute_position m.x s.x_position ∧
    nm.y = relComponent s.absolute_position m.y s.y_position ∧
    nm.z = relComponent s.absolute_position m.z s.z_position ∧
    nm.e = relComponent s.absolute_extrution m.e s.e_position := by
  unfold processMove at h
  rcases hcl : F.clampOpt (if m.target_velocity.isNaN then s.max_velocity
      else m.target_velocity) (F.val (1/10)) s.max_velocity with _ | tv
  · simp only [hcl] at h
    exact Option.noConfusion h
  · simp only [hcl, Option.some.injEq] at h
    subst h
    exact ⟨rfl, rfl, rfl, rfl, rfl⟩

/-- C7: after every `ActionQueue::push` and `flush`, any `Move` stored in
`ActionQueueInner.first_move` is in relative coordinates — each absolute
X/Y/Z component converted by subtracting the cached position when
`absolute_position` is set, E likewise under `absolute_extrution` — and none
of its `x`, `y`, `z`, `e`, `target_velocity` components is NaN.  Stated as:
the no-NaN property of the held move is preserved by every queue operation,
and the move a push stores is exactly the relative, NaN-free form of the
pushed move. -/
theorem first_move_relative_noNaN
    (s : QState) (op : QOp) (s' : QState) (b : List PrinterAction)
    (hs : HeldMoveOk s) (h : stepOp s op = some (s', b)) :
    HeldMoveOk s' ∧
    (∀ m nm, op = .push (.move m) → s.suspended = false → s.first_move = none →
      processMove s m = some nm →
      s'.first_move = some nm ∧ NoNaNMove nm ∧
      nm.x = relComponent s.absolute_position m.x s.x_position ∧
      nm.y = relComponent s.absolute_position m.y s.y_position ∧
      nm.z = relComponent s.absolute_position m.z s.z_position ∧
      nm.e = relComponent s.absolute_extrution m.e s.e_position) := by
  refine ⟨stepOp_heldMoveOk hs h, ?_⟩
  rintro m nm rfl hsus hfm hpm
  have hb : s'.first_move = some nm := by
    simp only [stepOp] at h
    unfold push at h
    rw [if_neg (by simp [hsus])] at h
    dsimp only at h
    rw [hpm, hfm] at h
    obtain ⟨h1, -⟩ := Prod.mk.injEq .. ▸ Option.some.inj h
    rw [← h1]
  obtain ⟨-, hx, hy, hz, he⟩ := processMove_fields hpm
  exact ⟨hb, processMove_noNaN hpm, hx, hy, hz, he⟩

/-- Concrete instantiation data for the C7 witness: spec §8 scenario 3 —
absolute positioning with cached `x = 5` and a push of `Move { x = 12 }`. -/
def c7state : QState :=
  { QState.initial with
    absolute_position := true
    x_position := F.val 5
    y_position := F.val 2
    z_position := F.val 3 }

def c7move : Move :=
  { start_velocity := F.nan, target_velocity := F.nan,
    x := F.val 12, y := F.nan, z := F.nan, e := F.nan }

/-- The relative, NaN-free move the push stores: `x = 12 - 5 = 7`, the
unspecified components zeroed, the target velocity defaulted to 100. -/
def c7stored : Move :=
  { start_velocity := F.nan, target_velocity := F.val 100,
    x := F.val 7, y := F.val 0, z := F.val 0, e := F.val 0 }

/-- The state after the push: positions advanced at acceptance time, the
relative move held as `first_move` with the frozen `max_accel`. -/
def c7after : QState :=
  { c7state with
    x_position := F.val 12
    y_position := F.val 2
    z_position := F.val 3
    e_position := F.val 0
    first_move := some c7stored
    first_move_accel := F.val 3000 }

theorem first_move_relative_noNaN_witness :
    c7after.first_move = some c7stored ∧ NoNaNMove c7stored ∧
    c7stored.x = relComponent true (F.val 12) (F.val 5) ∧
    c7stored.e = relComponent false F.nan (F.val 0) :=
  have h := (first_move_relative_noNaN c7state (.push (.move c7move)) c7after []
    (fun fm hfm => Option.noConfusion hfm)
    (by norm_num [stepOp, push, processMove, c7state, c7move, c7after, c7stored,
      QState.initial, F.clampOpt, F.isNaN, F.sub, F.add])).2 c7move c7stored
    rfl rfl rfl
    (by norm_num [processMove, c7state, c7move, c7stored, QState.initial,
      F.clampOpt, F.isNaN, F.sub])
  ⟨h.1, h.2.1, h.2.2.1, h.2.2.2.2.2⟩

/-- The relative displacement vectors of the `Move`s the queue accepts along
a run: every Move pushed while the queue is not suspended contributes its
processed (relative, NaN-free) form — whether it is stored as `first_move`
or only used to encode the previously held move. -/
def acceptedMoves (s : QState) : List QOp → List Move
  | [] => []
  | op :: ops =>
    match stepOp s op with
    | none => []
    | some (s1, _) =>
      match op, s.suspended with
      | .push (.move m), false =>
        (match processMove s m with
          | some nm => [nm]
          | none => []) ++ acceptedMoves s1 ops
      | _, _ => acceptedMoves s1 ops

/-- A queue operation that is not an accepted Move push leaves all four
cached positions unchanged. -/
theorem stepOp_positions_frozen {s : QState} {op : QOp} {s1 : QState}
    {b : List PrinterAction} (h : stepOp s op = some (s1, b))
    (hop : s.suspended = true ∨ ∀ m, op ≠ .push (.move m)) :
    s1.x_position = s.x_position ∧ s1.y_position = s.y_position ∧
    s1.z_position = s.z_position ∧ s1.e_position = s.e_position := by
  have hflush : (flush s).1.x_position = s.x_position ∧
      (flush s).1.y_position = s.y_position ∧
      (flush s).1.z_position = s.z_position ∧
      (flush s).1.e_position = s.e_position := by
    unfold flush
    split
    · exact ⟨rfl, rfl, rfl, rfl⟩
    · split <;> exact ⟨rfl, rfl, rfl, rfl⟩
  cases op with
  | flush =>
    have h' : (flush s).1 = s1 := congrArg Prod.fst (Option.some.inj h)
    exact h' ▸ hflush
  | push a =>
    simp only [stepOp] at h
    unfold push at h
    split at h
    · obtain ⟨rfl, rfl⟩ : (s, ([] : List PrinterAction)) = (s1, b) :=
        Option.some.inj h
      exact ⟨rfl, rfl, rfl, rfl⟩
    · cases a with
      | move m =>
        rcases hop with hop | hop
        · simp_all
        · exact absurd rfl (hop m)
      | setVelocity f =>
        dsimp only at h
        obtain ⟨h1, -⟩ := Prod.mk.injEq .. ▸ Option.some.inj h
        rw [← h1]; exact ⟨rfl, rfl, rfl, rfl⟩
      | setBedTemp t =>
        dsimp only at h
        rcases hfm : s.first_move with _ | fm <;> rw [hfm] at h <;>
          obtain ⟨h1, -⟩ := Prod.mk.injEq .. ▸ Option.some.inj h <;>
          rw [← h1] <;> exact ⟨rfl, rfl, rfl, rfl⟩
      | setBedTempWait t =>
        dsimp only at h
        obtain ⟨h1, -⟩ := Prod.mk.injEq .. ▸ Option.some.inj h
        rw [← h1]; exact hflush
      | setExtruderTemp index temp =>
        dsimp only at h
        rcases hfm : s.first_move with _ | fm <;> rw [hfm] at h <;>
          obtain ⟨h1, -⟩ := Prod.mk.injEq .. ▸ Option.some.inj h <;>
          rw [← h1] <;> exact ⟨rfl, rfl, rfl, rfl⟩
      | setExtruderTempWait index temp =>
        dsimp only at h
        obtain ⟨h1, -⟩ := Prod.mk.injEq .. ▸ Option.some.inj h
        rw [← h1]; exact hflush

/-- An accepted Move push advances each cached position by the processed
move's relative displacement (at acceptance time, before any emission). -/
theorem stepOp_positions_move {s : QState} {m : Move} {s1 : QState}
    {b : List PrinterAction} (hsus : s.suspended = false)
    (h : stepOp s (.push (.move m)) = some (s1, b)) :
    ∃ nm, processMove s m = some nm ∧
      s1.x_position = s.x_position.add nm.x ∧
      s1.y_position = s.y_position.add nm.y ∧
      s1.z_position = s.z_position.add nm.z ∧
      s1.e_position = s.e_position.add nm.e := by
  simp only [stepOp] at h
  unfold push at h
  rw [if_neg (by simp [hsus])] at h
  dsimp only at h
  rcases hpm : processMove s m with _ | nm <;> rw [hpm] at h
  · exact Option.noConfusion h
  · refine ⟨nm, rfl, ?_⟩
    rcases hfm : s.first_move with _ | fm <;> rw [hfm] at h <;>
      obtain ⟨h1, -⟩ := Prod.mk.injEq .. ▸ Option.some.inj h <;>
      rw [← h1] <;> exact ⟨rfl, rfl, rfl, rfl⟩

/-- C8: for all sequences of `Action`s pushed into the queue, after the run
each of `ActionState.{x,y,z,e}_position` equals its initial value plus the
(`F`-valued, NaN-absorbing) sum of the per-axis relative displacements of
all Moves accepted so far, updated at acceptance time rather than at
emission time.  Quantifying over every operation list gives the property
after each individual push (take the prefix of the run). -/
theorem acceptedMoves_cons (s : QState) (op : QOp) (ops : List QOp) :
    acceptedMoves s (op :: ops) =
      match stepOp s op with
      | none => []
      | some (s1, _) =>
        match op, s.suspended with
        | .push (.move m), false =>
          (match processMove s m with
            | some nm => [nm]
            | none => []) ++ acceptedMoves s1 ops
        | _, _ => acceptedMoves s1 ops := rfl

theorem acceptedMoves_cons_skip {s : QState} {op : QOp} {s1 : QState}
    {b : List PrinterAction} (ops : List QOp) (h : stepOp s op = some (s1, b))
    (hop : (∀ m, op ≠ .push (.move m)) ∨ s.suspended = true) :
    acceptedMoves s (op :: ops) = acceptedMoves s1 ops := by
  rw [acceptedMoves_cons, h]
  rcases op with a | _
  · rcases a with m | f | t | t | ⟨i, t⟩ | ⟨i, t⟩
    · rcases hop with hop | hop
      · exact absurd rfl (hop m)
      · rw [hop]
    all_goals (rcases hsus : s.suspended with _ | _ <;> rfl)
  · rcases hsus : s.suspended with _ | _ <;> rfl

theorem positions_sum_of_accepted (s : QState) (ops : List QOp) (s' : QState)
    (bs : List (List PrinterAction)) (h : runOps s ops = some (s', bs)) :
    s'.x_position = ((acceptedMoves s ops).map Move.x).foldl F.add s.x_position ∧
    s'.y_position = ((acceptedMoves s ops).map Move.y).foldl F.add s.y_position ∧
    s'.z_position = ((acceptedMoves s ops).map Move.z).foldl F.add s.z_position ∧
    s'.e_position = ((acceptedMoves s ops).map Move.e).foldl F.add s.e_position := by
  induction ops generalizing s bs with
  | nil =>
    obtain ⟨rfl, -⟩ : (s, ([] : List (List PrinterAction))) = (s', bs) :=
      Option.some.inj h
    exact ⟨rfl, rfl, rfl, rfl⟩
  | cons op ops ih =>
    unfold runOps at h
    rcases hst : stepOp s op with _ | s1b <;> rw [hst] at h
    · exact Option.noConfusion h
    · obtain ⟨s1, b⟩ := s1b
      dsimp only at h
      rcases hr : runOps s1 ops with _ | s2bs <;> rw [hr] at h
      · exact Option.noConfusion h
      · obtain ⟨s2, bs2⟩ := s2bs
        obtain ⟨h1, -⟩ := Prod.mk.injEq .. ▸ Option.some.inj h
        subst h1
        obtain ⟨ihx, ihy, ihz, ihe⟩ := ih s1 bs2 hr
        rcases op with a | _
        · rcases a with m | f | t | t | ⟨i, t⟩ | ⟨i, t⟩
          · rcases hsus : s.suspended with _ | _
            · -- the accepted Move push: its displacement joins the sum
              obtain ⟨nm, hpm, hx, hy, hz, he⟩ := stepOp_positions_move hsus hst
              have hacc : acceptedMoves s (QOp.push (Action.move m) :: ops) =
                  nm :: acceptedMoves s1 ops := by
                simp only [acceptedMoves_cons, hst, hsus, hpm]
                rfl
              rw [hacc, ihx, ihy, ihz, ihe, hx, hy, hz, he]
              exact ⟨rfl, rfl, rfl, rfl⟩
            · -- push while suspended: ignored
              have hfr := stepOp_positions_frozen hst (Or.inl hsus)
              rw [acceptedMoves_cons_skip ops hst (Or.inr hsus),
                ihx, ihy, ihz, ihe, hfr.1, hfr.2.1, hfr.2.2.1, hfr.2.2.2]
              exact ⟨rfl, rfl, rfl, rfl⟩
          all_goals
            have hfr := stepOp_positions_frozen hst
              (Or.inr (by intro m hEq; simp at hEq))
            rw [acceptedMoves_cons_skip ops hst (Or.inl (by intro m hEq; simp at hEq)),
              ihx, ihy, ihz, ihe, hfr.1, hfr.2.1, hfr.2.2.1, hfr.2.2.2]
            exact ⟨rfl, rfl, rfl, rfl⟩
        · have hfr := stepOp_positions_frozen hst
            (Or.inr (by intro m hEq; simp at hEq))
          rw [acceptedMoves_cons_skip ops hst (Or.inl (by intro m hEq; simp at hEq)),
            ihx, ihy, ihz, ihe, hfr.1, hfr.2.1, hfr.2.2.1, hfr.2.2.2]
          exact ⟨rfl, rfl, rfl, rfl⟩

def c8start : QState :=
  { QState.initial with
    x_position := F.val 0
    y_position := F.val 0
    z_position := F.val 0 }

/-- One relative move `x = 10, e = 2` with everything else unspecified. -/
def c8m : Move :=
  { start_velocity := F.nan, target_velocity := F.nan,
    x := F.val 10, y := F.nan, z := F.nan, e := F.val 2 }

def c8ops : List QOp := [.push (.move c8m)]

def c8nm : Move :=
  { start_velocity := F.nan, target_velocity := F.val 100,
    x := F.val 10, y := F.val 0, z := F.val 0, e := F.val 2 }

def c8end : QState :=
  { c8start with
    x_position := F.val 10
    e_position := F.val 2
    first_move := some c8nm
    first_move_accel := F.val 3000 }

theorem positions_sum_of_accepted_witness :
    c8end.x_position =
      ((acceptedMoves c8start c8ops).map Move.x).foldl F.add c8start.x_position ∧
    c8end.y_position =
      ((acceptedMoves c8start c8ops).map Move.y).foldl F.add c8start.y_position ∧
    c8end.z_position =
      ((acceptedMoves c8start c8ops).map Move.z).foldl F.add c8start.z_position ∧
    c8end.e_position =
      ((acceptedMoves c8start c8ops).map Move.e).foldl F.add c8start.e_position :=
  positions_sum_of_accepted c8start c8ops c8end [[]]
    (by norm_num [runOps, stepOp, push, processMove, F.clampOpt, F.isNaN,
      F.sub, F.add, c8start, c8ops, c8m, c8end, c8nm, QState.initial])

/-- A pure-extrusion move held as `first_move` (spec §8's extrusion-only
shape): `x = y = z = 0`, `e = 1`, target velocity `40`. -/
def c1fm : Move :=
  { start_velocity := F.nan, target_velocity := F.val 40,
    x := F.val 0, y := F.val 0, z := F.val 0, e := F.val 1 }

def c1state : QState :=
  { QState.initial with
    first_move := some c1fm
    first_move_accel := F.val 3000 }

/-- A second move whose push triggers encoding of the held one. -/
def c1m2 : Move :=
  { start_velocity := F.nan, target_velocity := F.nan,
    x := F.val 3, y := F.nan, z := F.nan, e := F.nan }

/-- The state after either trigger: the held move is gone; only the frozen
acceleration differs from the initial state (position adds are
NaN-absorbing, and `0 + 0 = 0` on the e axis). -/
def c1after : QState := { QState.initial with first_move_accel := F.val 3000 }

/-- C1, evaluated at the failing input: the claim requires every `Move`
held as `first_move` that is encoded — because a second `Move` is pushed
or because `flush()` is called — to emit exactly one `PrinterAction` on
the event channel (here an `ExtrusionMove { flow = 40, distance = 1 }`
for the held pure extrusion).  But `encode_and_send` has an empty body
(action.rs line 350): it emits nothing for every move and look-ahead
hint, and both triggers consume the held move with an EMPTY batch —
`flush` and the second push each clear `first_move` and send zero
actions. -/
theorem encode_and_send_emits_nothing :
    (∀ fm hint, encode_and_send fm hint = []) ∧
    flush c1state = (c1after, []) ∧
    push c1state (.move c1m2) = some (c1after, []) ∧
    c1after.first_move = none := by
  refine ⟨fun _ _ => rfl, by rfl, ?_, rfl⟩
  norm_num [push, processMove, encode_and_send, F.clampOpt, F.isNaN, F.sub,
    F.add, c1state, c1m2, c1after, c1fm, QState.initial]

/-- The `PrinterAction` that a non-wait thermal push sends, immediately or
through the deferred FIFO (`SetBedTemp` / `SetExtruderTemp` only). -/
def immediateAction : QOp → Option PrinterAction
  | .push (.setBedTemp t) => some (.setBedTemp t)
  | .push (.setExtruderTemp index temp) => some (.setExtruderTemp index temp)
  | _ => none

/-- A non-wait thermal push while a move is pending defers: it appends its
action to the FIFO and emits nothing. -/
theorem stepOp_thermal_pending {s : QState} {op : QOp} {ta : PrinterAction}
    {fm : Move} (hsus : s.suspended = false) (hfm : s.first_move = some fm)
    (hta : immediateAction op = some ta) :
    stepOp s op = some ({ s with next_actions := s.next_actions ++ [ta] }, []) := by
  rcases op with a | _
  · rcases a with m | f | t | t | ⟨i, t⟩ | ⟨i, t⟩ <;>
      simp only [immediateAction] at hta <;>
      try exact Option.noConfusion hta
    all_goals
      obtain rfl := Option.some.inj hta
      simp only [stepOp]
      unfold push
      rw [if_neg (by simp [hsus])]
      dsimp only
      rw [hfm]
  · exact Option.noConfusion hta

/-- A non-wait thermal push while no move is pending emits its action
immediately, leaving the state unchanged. -/
theorem stepOp_thermal_idle {s : QState} {op : QOp} {ta : PrinterAction}
    (hsus : s.suspended = false) (hfm : s.first_move = none)
    (hta : immediateAction op = some ta) :
    stepOp s op = some (s, [ta]) := by
  rcases op with a | _
  · rcases a with m | f | t | t | ⟨i, t⟩ | ⟨i, t⟩ <;>
      simp only [immediateAction] at hta <;>
      try exact Option.noConfusion hta
    all_goals
      obtain rfl := Option.some.inj hta
      simp only [stepOp]
      unfold push
      rw [if_neg (by simp [hsus])]
      dsimp only
      rw [hfm]
  · exact Option.noConfusion hta

/-- Running only non-wait thermal pushes while a move is pending keeps the
pending move, emits nothing, and only appends to the deferred FIFO. -/
theorem runOps_thermal_deferred (mid : List QOp) :
    ∀ (s s3 : QState) (bsm : List (List PrinterAction)) (fm : Move),
    s.suspended = false → s.first_move = some fm →
    (∀ o ∈ mid, (immediateAction o).isSome = true) →
    runOps s mid = some (s3, bsm) →
    s3.suspended = false ∧ s3.first_move = some fm ∧
    s3.first_move_accel = s.first_move_accel ∧
    (∀ bb ∈ bsm, bb = []) ∧
    ∃ ext, s3.next_actions = s.next_actions ++ ext := by
  induction mid with
  | nil =>
    intro s s3 bsm fm hsus hfm hall h
    obtain ⟨h1, h2⟩ := Prod.mk.injEq .. ▸ Option.some.inj h
    subst h1
    subst h2
    exact ⟨hsus, hfm, rfl, fun bb hbb => absurd hbb (List.not_mem_nil bb),
      ⟨[], (List.append_nil _).symm⟩⟩
  | cons op mid ih =>
    intro s s3 bsm fm hsus hfm hall h
    have hop := hall op (List.mem_cons_self op mid)
    rcases hta : immediateAction op with _ | ta
    · rw [hta] at hop
      exact absurd hop (by simp)
    have hst := stepOp_thermal_pending hsus hfm hta
    unfold runOps at h
    rw [hst] at h
    dsimp only at h
    rcases hr : runOps { s with next_actions := s.next_actions ++ [ta] } mid
        with _ | s2bs <;> rw [hr] at h
    · exact Option.noConfusion h
    · obtain ⟨s2, bs2⟩ := s2bs
      obtain ⟨h1, h2⟩ := Prod.mk.injEq .. ▸ Option.some.inj h
      subst h1
      subst h2
      obtain ⟨ih1, ih2, ih3, ih4, ext, ih5⟩ :=
        ih { s with next_actions := s.next_actions ++ [ta] } _ bs2 fm hsus hfm
          (fun o ho => hall o (List.mem_cons_of_mem op ho)) hr
      refine ⟨ih1, ih2, ih3, ?_, ⟨[ta] ++ ext, ?_⟩⟩
      · intro bb hbb
        rcases List.mem_cons.mp hbb with rfl | hbb
        · rfl
        · exact ih4 bb hbb
      · rw [ih5]
        exact List.append_assoc _ _ _

/-- First Move of the C3 interleaving: `x = 10`, rest unspecified. -/
def c3m1 : Move :=
  { start_velocity := F.nan, target_velocity := F.nan,
    x := F.val 10, y := F.nan, z := F.nan, e := F.nan }

/-- Second Move of the C3 interleaving: `x = 7`, rest unspecified. -/
def c3m2 : Move :=
  { start_velocity := F.nan, target_velocity := F.nan,
    x := F.val 7, y := F.nan, z := F.nan, e := F.nan }

/-- The C3 interleaving (spec §8 scenario 4 shape): a Move, a non-wait
`SetBedTemp` while that move is pending, then a second Move, which takes
the pending move, calls `encode_and_send` on it and drains the FIFO. -/
def c3ops : List QOp :=
  [.push (.move c3m1), .push (.setBedTemp (F.val 60)), .push (.move c3m2)]

/-- The state after the run: the queue is empty again; only the frozen
acceleration differs from the initial state (position adds onto the NaN
initial positions are NaN-absorbing). -/
def c3end : QState := { QState.initial with first_move_accel := F.val 3000 }

/-- Test for the move-derived emissions the C3 ordering claim is about. -/
def isMoveAction : PrinterAction → Bool
  | .kinematicMove _ => true
  | .extrusionMove _ => true
  | _ => false

/-- C3, evaluated at the failing input: push `Move{x=10}` (it becomes the
pending `first_move`), push `SetBedTemp(60)` while it is pending, then
push `Move{x=7}`.  The thermal is deferred (its own batch is empty) and
then emitted in the third push's batch — but no batch of the whole run
contains any `KinematicMove`/`ExtrusionMove`, because `encode_and_send`'s
body is empty (action.rs line 350).  The event channel therefore carries
the deferred `SetBedTemp` with no action produced from the pending move
before it (or anywhere), so the claimed ordering — the thermal emitted
only after the `KinematicMove`/`ExtrusionMove` produced from that pending
move — cannot hold: the program never produces that action. -/
theorem deferred_thermal_without_move_action :
    runOps QState.initial c3ops =
      some (c3end, [[], [], [PrinterAction.setBedTemp (F.val 60)]]) ∧
    ([[], [], [PrinterAction.setBedTemp (F.val 60)]].map
      (fun b => b.filter isMoveAction)) = [[], [], []] := by
  constructor
  · norm_num [runOps, stepOp, push, processMove, encode_and_send, F.clampOpt,
      F.isNaN, F.sub, F.add, c3ops, c3m1, c3m2, c3end, QState.initial]
  · rfl

/-! ## Model of the external `fast_float` parser

The repository calls the external `fast_float` crate in two places:
`fast_float::parse` in the `g0`/`g1` handler and
`fast_float::parse_partial` in the config `Number` parser.  This models its
decimal and scientific forms (`[+-]? (digits [. digits*] | . digits)
([eE] [+-]? digits)?`, longest valid prefix); the crate's `inf`/`nan`
spellings are not modelled and no claim touches them. -/

/-- Consume a maximal run of ASCII digits, returning the accumulated value,
the number of digits, and the rest. -/
def takeDigits : ℚ → Nat → List Nat → ℚ × Nat × List Nat
  | acc, count, [] => (acc, count, [])
  | acc, count, c :: cs =>
    if 48 ≤ c ∧ c ≤ 57 then
      takeDigits (acc * 10 + ((c - 48 : Nat) : ℚ)) (count + 1) cs
    else (acc, count, c :: cs)

/-- Parse the longest valid float prefix, returning its value and the
number of bytes consumed (`none`: no valid float starts here). -/
def parsePartialFloat (s : List Nat) : Option (ℚ × Nat) :=
  let (sgn, nSgn, s1) :=
    match s with
    | 43 :: rest => ((1 : ℚ), 1, rest)
    | 45 :: rest => ((-1 : ℚ), 1, rest)
    | _ => ((1 : ℚ), 0, s)
  let (ip, nInt, s2) := takeDigits 0 0 s1
  let (mant, nMant, s3) :=
    match s2 with
    | 46 :: rest =>
      let (fp, nFrac, s3) := takeDigits 0 0 rest
      (ip + fp / (10 : ℚ) ^ nFrac, nInt + 1 + nFrac, s3)
    | _ => (ip, nInt, s2)
  if nInt = 0 ∧ nMant ≤ 1 then none
  else
    let (value, nTotal) :=
      match s3 with
      | c :: rest =>
        if c = 101 ∨ c = 69 then
          let (esgn, nESgn, s4) :=
            match rest with
            | 43 :: r => ((1 : ℤ), 1, r)
            | 45 :: r => ((-1 : ℤ), 1, r)
            | _ => ((1 : ℤ), 0, rest)
          let (ev, nExp, _) := takeDigits 0 0 s4
          if nExp = 0 then (mant, nMant)
          else (mant * (10 : ℚ) ^ (esgn * ev.num), nMant + 1 + nESgn + nExp)
        else (mant, nMant)
      | [] => (mant, nMant)
    some (sgn * value, nSgn + nTotal)

/-- Model of `fast_float::parse`: the whole input must be one valid float. -/
def parseFloatAll (s : List Nat) : Option ℚ :=
  match parsePartialFloat s with
  | some (q, len) => if len = s.length then some q else none
  | none => none

/-! ## The `g0`/`g1` handler (src/gantry/src/gcode/g1.rs)

`handler_inner` builds a `Move` whose components start as NaN, interprets
each parameter by its leading letter, and pushes at most one `Action`;
its returned string is always empty, so the embedding returns the pushed
action (`none` = nothing pushed) or a parse error. -/

/-- One iteration of the g1.rs parameter loop.  The five `if`s are
sequential and independent, exactly as in the source; note that the third
one tests `starts_with('Z')` twice (g1.rs line 31), so a lowercase `z`
parameter matches nothing. -/
def g1ParamStep (mv : Move) (param : List Nat) : Except Unit Move := do
  let mv ←
    if param.head? = some 88 ∨ param.head? = some 120 then
      match parseFloatAll param.tail with
      | some q => pure { mv with x := F.val q }
      | none => throw ()
    else pure mv
  let mv ←
    if param.head? = some 89 ∨ param.head? = some 121 then
      match parseFloatAll param.tail with
      | some q => pure { mv with y := F.val q }
      | none => throw ()
    else pure mv
  let mv ←
    if param.head? = some 90 ∨ param.head? = some 90 then
      match parseFloatAll param.tail with
      | some q => pure { mv with z := F.val q }
      | none => throw ()
    else pure mv
  let mv ←
    if param.head? = some 69 ∨ param.head? = some 101 then
      match parseFloatAll param.tail with
      | some q => pure { mv with e := F.val q }
      | none => throw ()
    else pure mv
  let mv ←
    if param.head? = some 70 ∨ param.head? = some 102 then
      match parseFloatAll param.tail with
      | some q => pure { mv with target_velocity := F.val (q / 60) }
      | none => throw ()
    else pure mv
  pure mv

def g1Loop : Move → List (List Nat) → Except Unit Move
  | mv, [] => .ok mv
  | mv, param :: rest =>
    match g1ParamStep mv param with
    | .ok mv' => g1Loop mv' rest
    | .error e => .error e

/-- g1.rs `handler_inner`: parse all parameters, then push `SetVelocity`
when only `F` was given, nothing when no axis and no `F` was given, and a
single `Move` otherwise. -/
def handler_inner (params : List (List Nat)) : Except Unit (Option Action) := do
  let mv ← g1Loop
    { start_velocity := F.nan, target_velocity := F.nan,
      x := F.nan, y := F.nan, z := F.nan, e := F.nan } params
  if mv.x.isNaN ∧ mv.y.isNaN ∧ mv.z.isNaN ∧ mv.e.isNaN then
    if ¬ mv.target_velocity.isNaN then
      pure (some (.setVelocity mv.target_velocity))
    else
      pure none
  else
    pure (some (.move mv))

/-- The move the claim expects the parameter list `["z5"]` to produce. -/
def g1zMove : Move :=
  { start_velocity := F.nan, target_velocity := F.nan,
    x := F.nan, y := F.nan, z := F.val 5, e := F.nan }

/-- C5, evaluated at the failing input: the claim says `X/Y/Z/E` set the
corresponding component in upper or lower case, but g1.rs line 31 tests
`starts_with('Z')` twice and never `'z'`, so the parameter list `["z5"]`
(bytes `[122, 53]`) matches no clause and the handler pushes nothing, while
the uppercase `["Z5"]` pushes the expected single `Move { z = 5 }`. -/
theorem g1_lowercase_z_ignored :
    handler_inner [[122, 53]] = Except.ok none ∧
    handler_inner [[90, 53]] = Except.ok (some (Action.move g1zMove)) := by
  constructor
  · rfl
  · norm_num [handler_inner, g1Loop, g1ParamStep, parseFloatAll,
      parsePartialFloat, takeDigits, g1zMove, F.isNaN]
    rfl

/-! ## File-watch cache invalidation (src/gantry/src/files.rs) -/

/-- The filesystem event kinds the worker distinguishes. -/
inductive EventKind where
  | modify
  | remove
  | other
deriving DecidableEq, Repr

/-- A filesystem path, component-wise (Rust `Path::starts_with` is a
component-wise prefix test). -/
abbrev FsPath := List String

/-- A `notify` filesystem event: a kind and the affected paths. -/
structure FsEvent where
  kind : EventKind
  paths : List FsPath
deriving DecidableEq, Repr

/-- The worker's cache: canonical path → parsed `GcodeFile` (abstracted). -/
abbrev Cache (α : Type) := List (FsPath × α)

/-- files.rs lines 106-114: on a Modify/Remove event the worker runs
`cache.remove(path)` for each event path — `HashMap::remove`, which drops
only the entry whose key is equal to the path; other event kinds leave the
cache alone. -/
def applyFsEvent {α : Type} (cache : Cache α) (ev : FsEvent) : Cache α :=
  match ev.kind with
  | .modify | .remove =>
    ev.paths.foldl (fun c p => c.filter (fun kv => kv.1 ≠ p)) cache
  | .other => cache

/-- C6 counterexample: a Modify event for path `a` leaves the entry keyed
`a/b.gcode` in the cache even though that key starts with the event path —
the claim says every entry whose key starts with an event path is removed.
-/
theorem cache_prefix_eviction_refuted :
    List.isPrefixOf ["a"] ["a", "b.gcode"] = true ∧
    applyFsEvent [((["a", "b.gcode"] : FsPath), (0 : Nat))]
        { kind := .modify, paths := [["a"]] } =
      [((["a", "b.gcode"] : FsPath), (0 : Nat))] :=
  ⟨by decide, by decide⟩

theorem foldl_filter_mem {α : Type} (ps : List FsPath) :
    ∀ (c : Cache α) (kv : FsPath × α),
      kv ∈ ps.foldl (fun c p => c.filter (fun kv => kv.1 ≠ p)) c ↔
        kv ∈ c ∧ kv.1 ∉ ps := by
  induction ps with
  | nil => intro c kv; simp
  | cons p ps ih =>
    intro c kv
    simp only [List.foldl_cons, ih, List.mem_filter, List.mem_cons,
      decide_eq_true_eq]
    constructor
    · rintro ⟨⟨h1, h2⟩, h3⟩
      exact ⟨h1, by rintro (h | h) <;> [exact h2 h; exact h3 h]⟩
    · rintro ⟨h1, h2⟩
      exact ⟨⟨h1, fun h => h2 (Or.inl h)⟩, fun h => h2 (Or.inr h)⟩

/-- C6 amended: for every Modify/Remove event, exactly the cache entries
whose canonical-path key equals one of the event's paths are removed
(prefix matching is used only for the registered handler callbacks, not for
cache eviction). -/
theorem cache_eviction_exact_match {α : Type} (cache : Cache α) (ev : FsEvent)
    (hkind : ev.kind = .modify ∨ ev.kind = .remove) :
    ∀ kv, kv ∈ applyFsEvent cache ev ↔ kv ∈ cache ∧ kv.1 ∉ ev.paths := by
  intro kv
  unfold applyFsEvent
  rcases hkind with h | h <;> rw [h] <;> exact foldl_filter_mem ev.paths cache kv

def c6cache : Cache Nat := [((["a"] : FsPath), 1), ((["b"] : FsPath), 2)]

def c6ev : FsEvent := { kind := .remove, paths := [["a"]] }

theorem cache_eviction_exact_match_witness :
    ((["b"] : FsPath), 2) ∈ applyFsEvent c6cache c6ev ↔
      ((["b"] : FsPath), 2) ∈ c6cache ∧ (["b"] : FsPath) ∉ c6ev.paths :=
  cache_eviction_exact_match c6cache c6ev (Or.inr rfl) (["b"], 2)

/-! ## Printer restart error paths (src/gantry/src/printer/printer.rs) -/

/-- Enum `PrinterErrorCode` from gantry-api, plus the `FileReadError` variant
that printer.rs references even though gantry-api does not declare it. -/
inductive PrinterErrorCode where
  | none
  | genericError
  | errorState
  | shutdownState
  | startupState
  | authFailed
  | authRequired
  | authTokenInvalid
  | authTokenTimeout
  | refreshTokenInvalid
  | printerConfigParseError
  | gcodeParseError
  | printJobRunning
  | printJobNotRunning
  | fileNotFound
  | fileCapacityFull
  | fileReadError
deriving DecidableEq, Repr

/-- Printer `State` from printer.rs. -/
inductive PState where
  | startup
  | ready
  | error (code : PrinterErrorCode) (message : String)
  | shutdown
deriving DecidableEq, Repr

/-- The decision structure of `Printer::restart` (printer.rs lines
102-164) as a function of the outcomes of its three fallible steps: open
the config file, read it to a string, and parse it (`PrinterConfig::parse`);
each `Except.error` carries the error message.  Open failure stores
`Error{FileNotFound}`, read failure `Error{FileReadError}`, parse failure
`Error{FileReadError}` (line 148); after a successful parse the source runs
into `todo!()`, modelled as `Option.none` (panic). -/
def restartState (openRes : Except String Unit) (readRes : Except String Unit)
    (parseRes : Except String Unit) : Option PState :=
  match openRes with
  | .error e => some (.error .fileNotFound e)
  | .ok _ =>
    match readRes with
    | .error e => some (.error .fileReadError e)
    | .ok _ =>
      match parseRes with
      | .error e => some (.error .fileReadError e)
      | .ok _ => none

/-- C2, evaluated on the failing path: when the config file is opened and
read successfully but parsing fails, `restart` stores `Error{FileReadError}`
(printer.rs line 148), not `Error{PrinterConfigParseError}` as the claim,
the spec, and the gantry-api doc of that variant ("error parsing config")
require. -/
theorem restart_parse_error_uses_fileReadError (e : String) :
    restartState (.ok ()) (.ok ()) (.error e) =
      some (.error .fileReadError e) ∧
    PrinterErrorCode.fileReadError ≠ PrinterErrorCode.printerConfigParseError :=
  ⟨rfl, by decide⟩

/-! ## Config parser (src/gantry/src/config/cfg.rs)

The hand-rolled recursive-descent parser over a byte stream with
transactional rewind.  Each production is a function of the input bytes and
the entry pointer; `ok v p` commits the new pointer, while `err pos msg`
models an `Err` return, after which the caller's `StreamCtx` is dropped and
the pointer rewinds — so a caller that catches an error simply continues
from its own pointer.  `panic` models a Rust panic (the
`stream.peek().unwrap()` inside `Section::parse`), `diverge` an infinite
loop (the `;`-comment skip at end of input), and `fuelOut` exhaustion of
the structural-recursion fuel (never reached when the fuel exceeds the
input length, since every loop iteration consumes at least one byte). -/

inductive PRes (α : Type) where
  | ok (v : α) (p : Nat)
  | err (pos : Nat) (msg : String)
  | panic
  | diverge
  | fuelOut
deriving DecidableEq, Repr

/-- Sequencing: propagate error, panic, divergence and fuel exhaustion. -/
def PRes.andThen {α β : Type} : PRes α → (α → Nat → PRes β) → PRes β
  | .ok v p, f => f v p
  | .err pos msg, _ => .err pos msg
  | .panic, _ => .panic
  | .diverge, _ => .diverge
  | .fuelOut, _ => .fuelOut

/-- Enum `Value` from cfg.rs (the array forms are declared but never produced by
the parser). -/
inductive CfgValue where
  | number (q : ℚ)
  | numberArray (qs : List ℚ)
  | ratio (q : ℚ)
  | str (s : List Nat)
  | strArray (ss : List (List Nat))
  | gcode (s : List Nat)
deriving DecidableEq, Repr

/-- Struct `Section` from cfg.rs (the key→value `HashMap` as an insert-replaces
association list). -/
structure CfgSection where
  prefix_name : List Nat
  suffix_name : Option (List Nat)
  values : List (List Nat × CfgValue)
deriving DecidableEq, Repr

/-- Predicate `unicode_id_start::is_id_start(c as char)` for a byte `c`: the Unicode
ID_Start property on U+0000..U+00FF. -/
def is_id_startB (c : Nat) : Bool :=
  decide ((65 ≤ c ∧ c ≤ 90) ∨ (97 ≤ c ∧ c ≤ 122) ∨ c = 170 ∨ c = 181 ∨
    c = 186 ∨ (192 ≤ c ∧ c ≤ 214) ∨ (216 ≤ c ∧ c ≤ 246) ∨
    (248 ≤ c ∧ c ≤ 255))

/-- Predicate `unicode_id_start::is_id_continue(c as char)` for a byte `c`: adds the
digits, `_` and U+00B7 to ID_Start. -/
def is_id_continueB (c : Nat) : Bool :=
  is_id_startB c || decide ((48 ≤ c ∧ c ≤ 57) ∨ c = 95 ∨ c = 183)

/-- Production `Whitspaces::parse` (source spelling): consume ` `, `\r`, `\t`; never
fails. -/
def whitspacesParse (d : List Nat) : Nat → Nat → PRes Unit
  | 0, _ => .fuelOut
  | fuel + 1, p =>
    match d.get? p with
    | some 32 | some 13 | some 9 => whitspacesParse d fuel (p + 1)
    | _ => .ok () p

/-- Production `EmptyLine::parse`: exactly one `\n`. -/
def emptyLineParse (d : List Nat) (p : Nat) : PRes Unit :=
  match d.get? p with
  | some 10 => .ok () (p + 1)
  | some _ => .err (p + 1) ""
  | none => .err p ""

/-- The tail of `Comment::parse`: consume up to and including the next
`\n`, or to end of input. -/
def commentSkip (d : List Nat) : Nat → Nat → PRes Unit
  | 0, _ => .fuelOut
  | fuel + 1, p =>
    match d.get? p with
    | none => .ok () p
    | some 10 => .ok () (p + 1)
    | some _ => commentSkip d fuel (p + 1)

/-- Production `Comment::parse`: a `#` full-line comment. -/
def commentParse (d : List Nat) (fuel p : Nat) : PRes Unit :=
  match d.get? p with
  | some 35 => commentSkip d fuel (p + 1)
  | some _ => .err (p + 1) ""
  | none => .err p ""

/-- Production `Comments::parse`: repeat `Comment` / `EmptyLine` while either
succeeds; never fails. -/
def commentsLoop (d : List Nat) : Nat → Nat → PRes Unit
  | 0, _ => .fuelOut
  | fuel + 1, p =>
    match commentParse d fuel p with
    | .ok _ p1 => commentsLoop d fuel p1
    | .panic => .panic
    | .diverge => .diverge
    | .fuelOut => .fuelOut
    | .err _ _ =>
      match emptyLineParse d p with
      | .ok _ p1 => commentsLoop d fuel p1
      | _ => .ok () p

/-- Index of the first `\n` at or after `p`, if any. -/
def findNewlineFrom (d : List Nat) (p : Nat) : Option Nat :=
  match (d.drop p).findIdx? (fun c => c == 10) with
  | some i => some (p + i)
  | none => none

/-- Production `LineEndComment::parse`: skip whitespace; then `next_char()` consumes
one byte unconditionally (committed by `finish`, even when it was the
terminating `\n` rather than a `;`); after a `;` the loop
`while peek != Some(b'\n') { next_char }` never tests for end of input, so
with no `\n` left `peek` returns `None` forever and the pointer stops
advancing: the loop spins (`diverge`).  The production itself never
returns `Err`. -/
def lineEndCommentParse (d : List Nat) (fuel p : Nat) : PRes Unit :=
  (whitspacesParse d fuel p).andThen fun _ p1 =>
    match d.get? p1 with
    | some 59 =>
      match findNewlineFrom d (p1 + 1) with
      | some i => .ok () i
      | none => .diverge
    | some _ => .ok () (p1 + 1)
    | none => .ok () p1

/-- The loop of `Ident::parse`: consume ID_Continue bytes. -/
def identLoop (d : List Nat) : Nat → Nat → List Nat → PRes (List Nat)
  | 0, _, _ => .fuelOut
  | fuel + 1, p, acc =>
    match d.get? p with
    | some c =>
      if is_id_continueB c then identLoop d fuel (p + 1) (acc ++ [c])
      else .ok acc p
    | none => .ok acc p

/-- Production `Ident::parse`: an ID_Start byte, then ID_Continue bytes. -/
def identParse (d : List Nat) (fuel p : Nat) : PRes (List Nat) :=
  match d.get? p with
  | some c =>
    if is_id_startB c then identLoop d fuel (p + 1) [c]
    else .err (p + 1) "expecting unicode id start"
  | none => .err p "expecting unicode id start"

/-- Production `Number::parse`: `fast_float::parse_partial` on `data[p..]`, advancing
the pointer by the consumed length. -/
def numberParse (d : List Nat) (p : Nat) : PRes ℚ :=
  match parsePartialFloat (d.drop p) with
  | some (q, len) => .ok q (p + len)
  | none => .err p "expecting number"

/-- Production `Ratio::parse`: `Number ':' Number`, evaluated as `a/b`, optionally
chained by `,` with the chained ratios multiplied left-to-right. -/
def ratioParse (d : List Nat) : Nat → Nat → PRes ℚ
  | 0, _ => .fuelOut
  | fuel + 1, p =>
    (numberParse d p).andThen fun a p1 =>
      match d.get? p1 with
      | some 58 =>
        (numberParse d (p1 + 1)).andThen fun b p2 =>
          (whitspacesParse d fuel p2).andThen fun _ p3 =>
            match d.get? p3 with
            | some 44 =>
              (whitspacesParse d fuel (p3 + 1)).andThen fun _ p4 =>
                (ratioParse d fuel p4).andThen fun n p5 =>
                  .ok (a / b * n) p5
            | _ => .ok (a / b) p3
      | some _ => .err (p1 + 1) "expecting character ':'"
      | none => .err p1 "expecting character ':'"

/-- Production `NumberOrRatioValue::parse`: `Ratio` falling back to `Number`, then an
optional line-end comment, then a mandatory `\n`.  The `.ok()` on
`LineEndComment` discards errors, but that production never errs — it can
only succeed or spin. -/
def numberOrRatioParse (d : List Nat) (fuel p : Nat) : PRes CfgValue :=
  let vRes : PRes CfgValue :=
    match ratioParse d fuel p with
    | .ok r p1 => .ok (CfgValue.ratio r) p1
    | .panic => .panic
    | .diverge => .diverge
    | .fuelOut => .fuelOut
    | .err _ _ =>
      match numberParse d p with
      | .ok n p1 => .ok (CfgValue.number n) p1
      | .err pos msg => .err pos msg
      | .panic => .panic
      | .diverge => .diverge
      | .fuelOut => .fuelOut
  vRes.andThen fun v p1 =>
    (lineEndCommentParse d fuel p1).andThen fun _ p2 =>
      match d.get? p2 with
      | some 10 => .ok v (p2 + 1)
      | some _ => .err (p2 + 1) "expecting line end"
      | none => .err p2 "expecting line end"

/-- The free-form line read that cfg.rs repeats verbatim inside
`Value::parse` and in `GcodeLine::parse`: read to `\n` or end of input,
dropping everything from the first `;` on. -/
def stringLineLoop (d : List Nat) : Nat → Nat → Bool → List Nat → PRes (List Nat)
  | 0, _, _, _ => .fuelOut
  | fuel + 1, p, isComment, acc =>
    match d.get? p with
    | none => .ok acc p
    | some 10 => .ok acc (p + 1)
    | some c =>
      let isComment := isComment || c == 59
      if isComment then stringLineLoop d fuel (p + 1) isComment acc
      else stringLineLoop d fuel (p + 1) isComment (acc ++ [c])

/-- The trailing-whitespace pop (` `, `\r`, `\t`) both line readers end
with. -/
def dropTrailingWs (s : List Nat) : List Nat :=
  (s.reverse.dropWhile (fun c => c == 32 || c == 13 || c == 9)).reverse

/-- Production `GcodeLine::parse`. -/
def gcodeLineParse (d : List Nat) (fuel p : Nat) : PRes (List Nat) :=
  (stringLineLoop d fuel p false []).andThen fun s p1 =>
    .ok (dropTrailingWs s) p1

/-- The loop of `Gcode::parse`: indented lines joined with `\n`, skipping
`#` comments, empty indented lines and blank lines, stopping at a dedent.
-/
def gcodeLoop (d : List Nat) : Nat → Nat → List Nat → PRes (List Nat)
  | 0, _, _ => .fuelOut
  | fuel + 1, p, lines =>
    match d.get? p with
    | some 32 =>
      match emptyLineParse d p with
      | .ok _ p1 => gcodeLoop d fuel p1 lines
      | .err _ _ =>
        (whitspacesParse d fuel p).andThen fun _ p1 =>
          (gcodeLineParse d fuel p1).andThen fun line p2 =>
            gcodeLoop d fuel p2 (lines ++ line ++ [10])
      | .panic => .panic
      | .diverge => .diverge
      | .fuelOut => .fuelOut
    | some 35 =>
      match commentParse d fuel p with
      | .ok _ p1 => gcodeLoop d fuel p1 lines
      | .err _ _ => gcodeLoop d fuel p lines
      | .panic => .panic
      | .diverge => .diverge
      | .fuelOut => .fuelOut
    | some 10 => gcodeLoop d fuel (p + 1) lines
    | _ => .ok lines p

/-- Production `Value::parse`: a leading `\n` starts an indented G-code block or an
empty string; a leading digit attempts `NumberOrRatioValue` and on an
`Err` restarts from the value start as a free-form string to the next
`\n`, stripping the `;` tail and trailing whitespace; anything else is the
free-form string directly; end of input is an empty string. -/
def valueParse (d : List Nat) (fuel p : Nat) : PRes CfgValue :=
  match d.get? p with
  | some 10 =>
    match d.get? (p + 1) with
    | some 32 =>
      (gcodeLoop d fuel (p + 1) []).andThen fun g p2 =>
        .ok (CfgValue.gcode g) p2
    | _ => .ok (CfgValue.str []) (p + 1)
  | some c =>
    if 48 ≤ c ∧ c ≤ 57 then
      match numberOrRatioParse d fuel p with
      | .ok v p1 => .ok v p1
      | .panic => .panic
      | .diverge => .diverge
      | .fuelOut => .fuelOut
      | .err _ _ =>
        (stringLineLoop d fuel p false []).andThen fun s p1 =>
          .ok (CfgValue.str (dropTrailingWs s)) p1
    else
      (stringLineLoop d fuel p false []).andThen fun s p1 =>
        .ok (CfgValue.str (dropTrailingWs s)) p1
  | none => .ok (CfgValue.str []) p

/-- Model of `HashMap::insert`: replace any existing binding of the key. -/
def insertKV (kvs : List (List Nat × CfgValue)) (k : List Nat) (v : CfgValue) :
    List (List Nat × CfgValue) :=
  kvs.filter (fun kv => kv.1 ≠ k) ++ [(k, v)]

/-- The loop of `KeyValues::parse`: `key : value` lines until end of input
or a `[` section boundary. -/
def keyValuesLoop (d : List Nat) : Nat → Nat →
    List (List Nat × CfgValue) → PRes (List (List Nat × CfgValue))
  | 0, _, _ => .fuelOut
  | fuel + 1, p, kvs =>
    if d.length ≤ p then .ok kvs p
    else if d.get? p = some 91 then .ok kvs p
    else
      (identParse d fuel p).andThen fun key p1 =>
        (whitspacesParse d fuel p1).andThen fun _ p2 =>
          match d.get? p2 with
          | some 58 =>
            (whitspacesParse d fuel (p2 + 1)).andThen fun _ p3 =>
              (valueParse d fuel p3).andThen fun v p4 =>
                (commentsLoop d fuel p4).andThen fun _ p5 =>
                  keyValuesLoop d fuel p5 (insertKV kvs key v)
          | some _ => .err (p2 + 1) "expecting character ':'"
          | none => .err p2 "expecting character ':'"

/-- Production `KeyValues::parse`. -/
def keyValuesParse (d : List Nat) (fuel p : Nat) :
    PRes (List (List Nat × CfgValue)) :=
  (commentsLoop d fuel p).andThen fun _ p1 => keyValuesLoop d fuel p1 []

/-- Production `Section::parse`: `[` Ident (` ` Ident)? `]`, whitespace, then — before
checking for the newline — `println!("{}", stream.peek().unwrap() as
char)` (cfg.rs line 175), which PANICS when the input ends right after the
header; then a mandatory `\n` and the key/values. -/
def sectionParse (d : List Nat) (fuel p : Nat) : PRes CfgSection :=
  match d.get? p with
  | some 91 =>
    (identParse d fuel (p + 1)).andThen fun pname p1 =>
      let cont : Option (List Nat) → Nat → PRes CfgSection := fun sname p2 =>
        (whitspacesParse d fuel p2).andThen fun _ p3 =>
          match d.get? p3 with
          | none => .panic
          | some 10 =>
            (keyValuesParse d fuel (p3 + 1)).andThen fun vals p4 =>
              .ok { prefix_name := pname, suffix_name := sname,
                    values := vals } p4
          | some _ => .err (p3 + 1) "expecting new line after section header"
      match d.get? p1 with
      | some 32 =>
        (identParse d fuel (p1 + 1)).andThen fun sname p2 =>
          match d.get? p2 with
          | some 93 => cont (some sname) (p2 + 1)
          | some _ => .err (p2 + 1) "expecting character ']'"
          | none => .err p2 "expecting character ']'"
      | some 93 => cont none (p1 + 1)
      | some _ => .err (p1 + 1) "expecting character ']'"
      | none => .err p1 "expecting character ']'"
  | some _ => .err (p + 1) "expecting character '['"
  | none => .err p "expecting character '['"

/-- The loop of `Config::parse`: sections separated by whitespace until end
of input. -/
def configSectionsLoop (d : List Nat) : Nat → Nat → List CfgSection →
    PRes (List CfgSection)
  | 0, _, _ => .fuelOut
  | fuel + 1, p, acc =>
    if d.length ≤ p then .ok acc p
    else
      (sectionParse d fuel p).andThen fun s p1 =>
        (whitspacesParse d fuel p1).andThen fun _ p2 =>
          configSectionsLoop d fuel p2 (acc ++ [s])

/-- Production `Config::parse`. -/
def configParse (d : List Nat) (fuel p : Nat) : PRes (List CfgSection) :=
  (commentsLoop d fuel p).andThen fun _ p1 => configSectionsLoop d fuel p1 []

/-- Wrapper for `Value::parse` on a whole byte string (fuel ample for the input: every
loop iteration and every `Ratio` chain element consumes at least one
byte). -/
def valueParseBytes (d : List Nat) : PRes CfgValue :=
  valueParse d (d.length + 16) 0

/-- Wrapper for `Config::parse` on a whole byte string. -/
def configParseBytes (d : List Nat) : PRes (List CfgSection) :=
  configParse d (d.length + 16) 0

/-- C4, evaluated at the failing input: on the value `5:1\n` (bytes
`[53, 58, 49, 10]`) the claim — and the repository's own
`test_value_parser`, which asserts `Value::Ratio(5.0)` — expects the ratio;
but `LineEndComment::parse` consumes the terminating `\n` while testing for
`;` and commits it, `NumberOrRatioValue` then misses its mandatory newline
and errs, and `Value::parse` falls back to the free-form string `5:1`. -/
theorem valueParse_ratio_newline_falls_back :
    valueParseBytes [53, 58, 49, 10] = PRes.ok (CfgValue.str [53, 58, 49]) 4 ∧
    CfgValue.str [53, 58, 49] ≠ CfgValue.ratio 5 := by
  constructor
  · rfl
  · decide

/-- C9, evaluated at the failing input: on the three bytes `[a]` (bytes
`[91, 97, 93]`) `Config::parse` reaches the debug
`println!("{}", stream.peek().unwrap() as char)` in `Section::parse`
(cfg.rs line 175) with the stream at end of input, and the `unwrap`
panics — the claim says every input yields `Ok` or `Err` without
panicking. -/
theorem configParse_unterminated_header_panics :
    configParseBytes [91, 97, 93] = PRes.panic := by
  rfl

/-- C10, evaluated at the failing input: on the value `5:1;` (bytes
`[53, 58, 49, 59]`) the ratio parses, then `LineEndComment::parse`
consumes the `;` and enters `while stream.peek() != Some(b'\n') {
stream.next_char(); }` with no newline left: `peek` returns `None` forever,
`next_char` no longer advances, and the loop never terminates — the claim
says `Value::parse` terminates on every finite input. -/
theorem valueParse_semicolon_eof_diverges :
    valueParseBytes [53, 58, 49, 59] = PRes.diverge := by
  rfl

end Gantry
